import Mathlib

/-!
# Dependency-graph health-check evaluator: a shallow embedding

This file embeds the core of `src/main.py` — a FastAPI service that parses a
JSON dependency description into a `networkx.DiGraph`, walks it with a
recursive depth-first traversal, probes each component's health, and renders
the resulting status map as a text table or an image — and proves or refutes
the specification's claims about it.

Modelling decisions, each tied to the source:

* `DiGraph` mirrors a `networkx.DiGraph` as built by `create_dag_from_json`:
  an insertion-ordered node list and an insertion-ordered edge list.
  `add_node` / `add_edge` behave like the networkx calls (idempotent, and
  `add_edge` auto-creates missing endpoints).  `DiGraph.neighbors` is
  `G.neighbors(n)` on a directed graph: the *successors* of `n`, in edge
  insertion order.
* `perform_health_check` takes Python's built-in `hash` as an explicit
  parameter `hash : String → Nat` because CPython randomizes string hashing
  per process; within one run it is a fixed pure function, which is exactly
  a parameter.  `await asyncio.sleep(1)` has no observable effect beyond
  time and is not modelled.
* `dfs_check_and_evaluate` is the recursive traversal, with an explicit
  `fuel : Nat` modelling Python's call stack: `none` means the recursion
  exhausted the bound (Python: `RecursionError`), which on a cyclic graph
  happens for every bound.  The traversal also emits a trace of events,
  `Ev.start c` when the probe of `c` begins (`await perform_health_check`)
  and `Ev.finish c` when its result is written to the status map; the
  Python coroutine awaits each probe to completion before doing anything
  else, so the two events are adjacent by construction.
* The status map is an insertion-ordered association list, exactly a Python
  `dict` whose keys are only ever freshly inserted.
* `eval_nodes` is the loop `for component in dag.nodes: ...` shared by both
  endpoints, and `health_check` composes it with graph construction as the
  `/healthcheck/` endpoint does.  `generate_status_table` and the
  `node_colors` comprehension of `generate_dag_image` are embedded directly;
  the `status_map[node]` dictionary lookup is `lookupKey`, with `none` for a
  Python `KeyError`.
-/

/-- A probe event in the evaluation trace: the probe of a component starts,
or its result is recorded in the status map. -/
inductive Ev where
  | start (c : String)
  | finish (c : String)
deriving DecidableEq, Repr

/-- The status map `status_map`: a Python dict from component to status
string, as an insertion-ordered association list. -/
abbrev StatusMap := List (String × String)

/-- `component in status_map` (src/main.py line 78). -/
def containsKey (m : StatusMap) (k : String) : Bool :=
  m.any (fun p => p.1 == k)

/-- `status_map[node]` (src/main.py line 99): `none` is a Python `KeyError`. -/
def lookupKey : StatusMap → String → Option String
  | [], _ => none
  | p :: rest, k => if p.1 == k then some p.2 else lookupKey rest k

/-- The keys of a status map, in insertion order. -/
def keysOf (m : StatusMap) : List String :=
  m.map Prod.fst

/-- A `networkx.DiGraph` as `create_dag_from_json` builds it: nodes in
insertion order, directed edges in insertion order. -/
structure DiGraph where
  nodes : List String
  edges : List (String × String)
deriving DecidableEq, Repr

/-- `dag.add_node(n)`: a no-op when the node exists (networkx semantics). -/
def add_node (g : DiGraph) (n : String) : DiGraph :=
  if n ∈ g.nodes then g else { g with nodes := g.nodes ++ [n] }

/-- `dag.add_edge(u, v)`: auto-creates missing endpoints, ignores a
duplicate edge (networkx semantics). -/
def add_edge (g : DiGraph) (u v : String) : DiGraph :=
  let g1 := add_node (add_node g u) v
  if (u, v) ∈ g1.edges then g1 else { g1 with edges := g1.edges ++ [(u, v)] }

/-- `dag.neighbors(c)` on a `networkx.DiGraph`: the *successors* of `c`, in
edge insertion order (src/main.py line 79 iterates exactly these). -/
def DiGraph.neighbors (g : DiGraph) (c : String) : List String :=
  (g.edges.filter (fun p => p.1 == c)).map (fun p => p.2)

/-- `create_dag_from_json` (src/main.py lines 67–73): for each
`(component, dependencies)` item, add the component node, then for each
dependency `dep` the edge `dep → component`.  The input is the parsed JSON
object in key insertion order. -/
def create_dag_from_json (data : List (String × List String)) : DiGraph :=
  data.foldl
    (fun dag p => p.2.foldl (fun d dep => add_edge d dep p.1) (add_node dag p.1))
    { nodes := [], edges := [] }

/-- `perform_health_check` (src/main.py lines 62–64), with CPython's
process-salted string `hash` as an explicit parameter. -/
def perform_health_check (hash : String → Nat) (component : String) : String :=
  if hash component % 3 ≠ 0 then "Healthy" else "Failed"

/-- `dfs_check_and_evaluate` (src/main.py lines 76–81): if the component is
not yet in the status map, recursively evaluate every `neighbors` successor,
then probe the component and record its status.  `fuel` models Python's
bounded call stack; `none` is a `RecursionError`.  The second result
component is the probe-event trace. -/
def dfs_check_and_evaluate (g : DiGraph) (hash : String → Nat) :
    Nat → String → StatusMap → Option (StatusMap × List Ev)
  | 0, _, _ => none
  | fuel + 1, component, status_map =>
    if containsKey status_map component then some (status_map, [])
    else
      match (g.neighbors component).foldl
          (fun acc dependency =>
            match acc with
            | none => none
            | some ms =>
              match dfs_check_and_evaluate g hash fuel dependency ms.1 with
              | none => none
              | some r => some (r.1, ms.2 ++ r.2))
          (some (status_map, [])) with
      | none => none
      | some r =>
        some (r.1 ++ [(component, perform_health_check hash component)],
              r.2 ++ [Ev.start component, Ev.finish component])

/-- One iteration of the endpoint loop `for component in dag.nodes` with its
`if component not in status_map` guard (src/main.py lines 119–121). -/
def eval_step (g : DiGraph) (hash : String → Nat) (fuel : Nat) :
    Option (StatusMap × List Ev) → String → Option (StatusMap × List Ev)
  | none, _ => none
  | some ms, component =>
    if containsKey ms.1 component then some ms
    else
      match dfs_check_and_evaluate g hash fuel component ms.1 with
      | none => none
      | some r => some (r.1, ms.2 ++ r.2)

/-- The evaluation loop shared by both endpoints (src/main.py lines 119–121
and 138–140): fold `eval_step` over the graph's nodes starting from the
empty status map. -/
def eval_nodes (g : DiGraph) (hash : String → Nat) (fuel : Nat) :
    Option (StatusMap × List Ev) :=
  g.nodes.foldl (eval_step g hash fuel) (some ([], []))

/-- The `/healthcheck/` endpoint body after JSON parsing (src/main.py
lines 114–121): build the DAG, then run the evaluation loop. -/
def health_check (hash : String → Nat) (fuel : Nat)
    (data : List (String × List String)) : Option (StatusMap × List Ev) :=
  eval_nodes (create_dag_from_json data) hash fuel

/-- `generate_status_table` (src/main.py lines 84–89): a header line, a
30-dash separator, then one `f"{component:<15} | {status}\n"` row per entry
in map order.  `ljust` is Python's `<15` left-justification. -/
def ljust (s : String) (w : Nat) : String :=
  s ++ String.mk (List.replicate (w - s.length) ' ')

def generate_status_table (status_map : StatusMap) : String :=
  status_map.foldl
    (fun table p => table ++ ljust p.1 15 ++ " | " ++ p.2 ++ "\n")
    ("Component     | Health\n" ++ String.mk (List.replicate 30 '-') ++ "\n")

/-- Element-wise evaluation of the `node_colors` list comprehension of
`generate_dag_image` (src/main.py line 99): red iff the status is
`"Failed"`, aborting with `none` when a lookup raises `KeyError`. -/
def colorList (status_map : StatusMap) : List String → Option (List String)
  | [] => some []
  | node :: rest =>
    match lookupKey status_map node with
    | none => none
    | some st =>
      match colorList status_map rest with
      | none => none
      | some cs => some ((if st == "Failed" then "red" else "green") :: cs)

/-- The `node_colors` comprehension of `generate_dag_image` (src/main.py
line 99): one color per graph node in node order; `none` when some node is
missing from the status map (Python `KeyError`). -/
def node_colors (g : DiGraph) (status_map : StatusMap) : Option (List String) :=
  colorList status_map g.nodes

/-- The fold over a component's direct successors inside
`dfs_check_and_evaluate`, with a general accumulator. -/
def dfs_deps_from (g : DiGraph) (hash : String → Nat) (fuel : Nat)
    (deps : List String) (acc : Option (StatusMap × List Ev)) :
    Option (StatusMap × List Ev) :=
  deps.foldl
    (fun acc dependency =>
      match acc with
      | none => none
      | some ms =>
        match dfs_check_and_evaluate g hash fuel dependency ms.1 with
        | none => none
        | some r => some (r.1, ms.2 ++ r.2))
    acc

/-- The successor fold started from a status map and an empty trace, exactly
as `dfs_check_and_evaluate` runs it. -/
def dfs_deps (g : DiGraph) (hash : String → Nat) (fuel : Nat)
    (deps : List String) (m : StatusMap) : Option (StatusMap × List Ev) :=
  dfs_deps_from g hash fuel deps (some (m, []))

/-- The endpoint loop as a fold from a general accumulator. -/
def eval_from (g : DiGraph) (hash : String → Nat) (fuel : Nat)
    (ns : List String) (acc : Option (StatusMap × List Ev)) :
    Option (StatusMap × List Ev) :=
  ns.foldl (eval_step g hash fuel) acc

/-- The concatenation of the per-component rows of the status table, in map
insertion order. -/
def statusRows (status_map : StatusMap) : String :=
  (status_map.map (fun p => ljust p.1 15 ++ " | " ++ p.2 ++ "\n")).foldr
    (fun a b => a ++ b) ""

/-- The diamond description of the specification's determinism test:
D depends on B and C, both of which depend on A. -/
def diamond_description : List (String × List String) :=
  [("A", []), ("B", ["A"]), ("C", ["A"]), ("D", ["B", "C"])]

/-- The trace a sequential run produces for a given status map: each probe's
start immediately followed by its completion, in insertion order. -/
def blocksOf : StatusMap → List Ev
  | [] => []
  | p :: rest => Ev.start p.1 :: Ev.finish p.1 :: blocksOf rest

/-- A graph is closed when every edge endpoint is a node; `add_edge`
guarantees this for every constructed graph. -/
def Closed (g : DiGraph) : Prop :=
  ∀ p ∈ g.edges, p.1 ∈ g.nodes ∧ p.2 ∈ g.nodes

/-- `rank` decreases along every edge (dependency → dependent); such a rank
function exists exactly when the dependency relation is acyclic. -/
def RankedBy (g : DiGraph) (rank : String → Nat) : Prop :=
  ∀ p ∈ g.edges, rank p.2 < rank p.1

instance (g : DiGraph) : Decidable (Closed g) :=
  inferInstanceAs (Decidable (∀ p ∈ g.edges, p.1 ∈ g.nodes ∧ p.2 ∈ g.nodes))

instance (g : DiGraph) (rank : String → Nat) : Decidable (RankedBy g rank) :=
  inferInstanceAs (Decidable (∀ p ∈ g.edges, rank p.2 < rank p.1))

/-- The number of simultaneously in-flight probes, tracked while scanning a
trace: a running counter and its maximum. -/
def inFlightStep : Nat × Nat → Ev → Nat × Nat
  | s, Ev.start _ => (s.1 + 1, Nat.max s.2 (s.1 + 1))
  | s, Ev.finish _ => (s.1 - 1, s.2)

/-- The largest number of probes ever simultaneously in flight in a trace. -/
def maxInFlight (tr : List Ev) : Nat :=
  (tr.foldl inFlightStep (0, 0)).2

lemma keysOf_append (a b : StatusMap) : keysOf (a ++ b) = keysOf a ++ keysOf b := by
  simp [keysOf]

lemma containsKey_iff (m : StatusMap) (k : String) :
    containsKey m k = true ↔ k ∈ keysOf m := by
  simp [containsKey, keysOf, List.any_eq_true, List.mem_map, beq_iff_eq]

lemma containsKey_false (m : StatusMap) (k : String)
    (h : containsKey m k = false) : k ∉ keysOf m := by
  intro hk
  rw [← containsKey_iff] at hk
  simp [h] at hk

lemma blocksOf_append (a b : StatusMap) :
    blocksOf (a ++ b) = blocksOf a ++ blocksOf b := by
  induction a with
  | nil => rfl
  | cons p rest ih => simp [blocksOf, ih]

lemma count_start_blocksOf (m : StatusMap) (k : String) :
    (blocksOf m).count (Ev.start k) = (keysOf m).count k := by
  induction m with
  | nil => rfl
  | cons p rest ih =>
    simp [blocksOf, keysOf, List.count_cons, ih]

lemma lookupKey_eq_of_forall (f : String → String) (m : StatusMap)
    (h : ∀ p ∈ m, p.2 = f p.1) (k : String) (hk : k ∈ keysOf m) :
    lookupKey m k = some (f k) := by
  induction m with
  | nil => simp [keysOf] at hk
  | cons p rest ih =>
    by_cases hpk : p.1 = k
    · subst hpk
      simp [lookupKey, h p (by simp)]
    · have hk' : k ∈ keysOf rest := by
        simp only [keysOf, List.map_cons, List.mem_cons] at hk
        rcases hk with hk | hk
        · exact absurd hk.symm hpk
        · simpa [keysOf] using hk
      have := ih (fun q hq => h q (by simp [hq])) hk'
      simpa [lookupKey, hpk] using this

lemma inflight_blocks (m : StatusMap) :
    ∀ mx, ((blocksOf m).foldl inFlightStep (0, mx)).1 = 0 ∧
      ((blocksOf m).foldl inFlightStep (0, mx)).2 ≤ Nat.max mx 1 := by
  induction m with
  | nil => intro mx; exact ⟨rfl, Nat.le_max_left mx 1⟩
  | cons p rest ih =>
    intro mx
    have step2 :
        (blocksOf (p :: rest)).foldl inFlightStep (0, mx) =
          (blocksOf rest).foldl inFlightStep (0, Nat.max mx 1) := by
      simp [blocksOf, inFlightStep]
    rw [step2]
    refine ⟨(ih (Nat.max mx 1)).1, ?_⟩
    have := (ih (Nat.max mx 1)).2
    have h2 : Nat.max (Nat.max mx 1) 1 ≤ Nat.max mx 1 :=
      Nat.max_le.mpr ⟨Nat.le_refl _, Nat.le_max_right mx 1⟩
    exact le_trans this h2

lemma maxInFlight_blocksOf_le_one (m : StatusMap) :
    maxInFlight (blocksOf m) ≤ 1 := by
  have := (inflight_blocks m 0).2
  simpa [maxInFlight] using this

lemma mem_neighbors (g : DiGraph) (c d : String) :
    d ∈ g.neighbors c ↔ ∃ p ∈ g.edges, p.1 = c ∧ p.2 = d := by
  simp only [DiGraph.neighbors, List.mem_map, List.mem_filter, beq_iff_eq]
  constructor
  · rintro ⟨p, ⟨hp, h1⟩, h2⟩
    exact ⟨p, hp, h1, h2⟩
  · rintro ⟨p, hp, h1, h2⟩
    exact ⟨p, ⟨hp, h1⟩, h2⟩

lemma neighbors_mem_nodes {g : DiGraph} (hc : Closed g) {c d : String}
    (hd : d ∈ g.neighbors c) : d ∈ g.nodes := by
  rcases (mem_neighbors g c d).mp hd with ⟨p, hp, _, h2⟩
  exact h2 ▸ (hc p hp).2

lemma neighbors_rank_lt {g : DiGraph} {rank : String → Nat}
    (hr : RankedBy g rank) {c d : String} (hd : d ∈ g.neighbors c) :
    rank d < rank c := by
  rcases (mem_neighbors g c d).mp hd with ⟨p, hp, h1, h2⟩
  have := hr p hp
  rw [h1, h2] at this
  exact this

lemma dfs_succ (g : DiGraph) (hash : String → Nat) (fuel : Nat)
    (c : String) (m : StatusMap) :
    dfs_check_and_evaluate g hash (fuel + 1) c m =
      if containsKey m c then some (m, [])
      else
        match dfs_deps g hash fuel (g.neighbors c) m with
        | none => none
        | some r =>
          some (r.1 ++ [(c, perform_health_check hash c)],
                r.2 ++ [Ev.start c, Ev.finish c]) := rfl

lemma dfs_deps_from_none (g : DiGraph) (hash : String → Nat) (fuel : Nat)
    (ds : List String) : dfs_deps_from g hash fuel ds none = none := by
  induction ds with
  | nil => rfl
  | cons d ds ih => exact ih

lemma dfs_deps_from_some (g : DiGraph) (hash : String → Nat) (fuel : Nat)
    (ds : List String) :
    ∀ m tr, dfs_deps_from g hash fuel ds (some (m, tr)) =
      Option.map (fun r => (r.1, tr ++ r.2)) (dfs_deps g hash fuel ds m) := by
  induction ds with
  | nil =>
    intro m tr
    simp [dfs_deps, dfs_deps_from]
  | cons d ds ih =>
    intro m tr
    show dfs_deps_from g hash fuel ds
        (match dfs_check_and_evaluate g hash fuel d m with
          | none => none
          | some r => some (r.1, tr ++ r.2)) = _
    rcases h : dfs_check_and_evaluate g hash fuel d m with _ | r
    · have lhs : dfs_deps_from g hash fuel ds none = none :=
        dfs_deps_from_none g hash fuel ds
      have rhs : dfs_deps g hash fuel (d :: ds) m = none := by
        show dfs_deps_from g hash fuel ds
            (match dfs_check_and_evaluate g hash fuel d m with
              | none => none
              | some r => some (r.1, [] ++ r.2)) = none
        rw [h]
        exact dfs_deps_from_none g hash fuel ds
      rw [rhs]
      simpa using lhs
    · have rhs : dfs_deps g hash fuel (d :: ds) m =
          Option.map (fun r2 => (r2.1, r.2 ++ r2.2)) (dfs_deps g hash fuel ds r.1) := by
        show dfs_deps_from g hash fuel ds
            (match dfs_check_and_evaluate g hash fuel d m with
              | none => none
              | some r => some (r.1, [] ++ r.2)) = _
        rw [h]
        simpa using ih r.1 r.2
      rw [rhs, ih r.1 (tr ++ r.2)]
      rcases dfs_deps g hash fuel ds r.1 with _ | r2
      · rfl
      · simp [Option.map]

lemma dfs_deps_cons (g : DiGraph) (hash : String → Nat) (fuel : Nat)
    (d : String) (ds : List String) (m : StatusMap) :
    dfs_deps g hash fuel (d :: ds) m =
      match dfs_check_and_evaluate g hash fuel d m with
      | none => none
      | some r =>
        Option.map (fun r2 => (r2.1, r.2 ++ r2.2)) (dfs_deps g hash fuel ds r.1) := by
  show dfs_deps_from g hash fuel ds
      (match dfs_check_and_evaluate g hash fuel d m with
        | none => none
        | some r => some (r.1, [] ++ r.2)) = _
  rcases h : dfs_check_and_evaluate g hash fuel d m with _ | r
  · exact dfs_deps_from_none g hash fuel ds
  · simpa using dfs_deps_from_some g hash fuel ds r.1 r.2

lemma mem_keysOf (l : StatusMap) (a : String) :
    a ∈ keysOf l ↔ ∃ p ∈ l, p.1 = a := by
  simp [keysOf, List.mem_map]

/-- Soundness of the successor fold, given soundness of the recursive call at
the current fuel: it extends the status map with freshly probed components,
all of rank strictly below `b`, and covers every listed successor. -/
lemma dfs_deps_sound (g : DiGraph) (hash rank : String → Nat) (fuel b : Nat)
    (IH : ∀ c m, c ∈ g.nodes → rank c < fuel →
      ∃ new, dfs_check_and_evaluate g hash fuel c m = some (m ++ new, blocksOf new) ∧
        (∀ p ∈ new, p.2 = perform_health_check hash p.1 ∧ p.1 ∈ g.nodes ∧
          rank p.1 ≤ rank c ∧ p.1 ∉ keysOf m) ∧
        (keysOf new).Nodup ∧ c ∈ keysOf (m ++ new)) :
    ∀ ds m, (∀ d ∈ ds, d ∈ g.nodes ∧ rank d < fuel ∧ rank d < b) →
      ∃ new, dfs_deps g hash fuel ds m = some (m ++ new, blocksOf new) ∧
        (∀ p ∈ new, p.2 = perform_health_check hash p.1 ∧ p.1 ∈ g.nodes ∧
          rank p.1 < b ∧ p.1 ∉ keysOf m) ∧
        (keysOf new).Nodup ∧ ∀ d ∈ ds, d ∈ keysOf (m ++ new) := by
  intro ds
  induction ds with
  | nil =>
    intro m _
    exact ⟨[], by simp [dfs_deps, dfs_deps_from, blocksOf], by simp, by simp [keysOf],
      by simp⟩
  | cons d ds ihds =>
    intro m hds
    obtain ⟨hdn, hdf, hdb⟩ := hds d (by simp)
    obtain ⟨new1, e1, p1, n1, c1⟩ := IH d m hdn hdf
    obtain ⟨new2, e2, p2, n2, c2⟩ :=
      ihds (m ++ new1) (fun x hx => hds x (by simp [hx]))
    refine ⟨new1 ++ new2, ?_, ?_, ?_, ?_⟩
    · rw [dfs_deps_cons, e1]
      show Option.map _ (dfs_deps g hash fuel ds (m ++ new1)) = _
      rw [e2]
      simp [blocksOf_append]
    · intro p hp
      rcases List.mem_append.mp hp with hp1 | hp2
      · obtain ⟨v, nn, rr, nm⟩ := p1 p hp1
        exact ⟨v, nn, lt_of_le_of_lt rr hdb, nm⟩
      · obtain ⟨v, nn, rr, nm⟩ := p2 p hp2
        refine ⟨v, nn, rr, ?_⟩
        intro hmem
        exact nm (by rw [keysOf_append]; exact List.mem_append.mpr (Or.inl hmem))
    · rw [keysOf_append]
      refine List.Nodup.append n1 n2 ?_
      intro a ha1 ha2
      obtain ⟨p, hp, hpa⟩ := (mem_keysOf new2 a).mp ha2
      obtain ⟨_, _, _, nm⟩ := p2 p hp
      rw [hpa] at nm
      exact nm (by rw [keysOf_append]; exact List.mem_append.mpr (Or.inr ha1))
    · intro x hx
      rcases List.mem_cons.mp hx with rfl | hx'
      · rw [keysOf_append] at c1 ⊢
        rw [keysOf_append]
        rcases List.mem_append.mp c1 with h | h
        · exact List.mem_append.mpr (Or.inl h)
        · exact List.mem_append.mpr (Or.inr (List.mem_append.mpr (Or.inl h)))
      · have := c2 x hx'
        rw [keysOf_append, keysOf_append] at this
        rw [keysOf_append, keysOf_append]
        rcases List.mem_append.mp this with h | h
        · rcases List.mem_append.mp h with h' | h'
          · exact List.mem_append.mpr (Or.inl h')
          · exact List.mem_append.mpr (Or.inr (List.mem_append.mpr (Or.inl h')))
        · exact List.mem_append.mpr (Or.inr (List.mem_append.mpr (Or.inr h)))

/-- Soundness of `dfs_check_and_evaluate` on a closed, ranked (i.e. acyclic)
graph, with fuel above the start node's rank: the call succeeds, appends
exactly the freshly probed components (each with its own probe result, each
at most the start node's rank, none previously present, no duplicates), and
the trace is the corresponding sequence of adjacent start/finish blocks. -/
lemma dfs_sound (g : DiGraph) (hash rank : String → Nat)
    (hcl : Closed g) (hr : RankedBy g rank) :
    ∀ fuel c m, c ∈ g.nodes → rank c < fuel →
      ∃ new, dfs_check_and_evaluate g hash fuel c m = some (m ++ new, blocksOf new) ∧
        (∀ p ∈ new, p.2 = perform_health_check hash p.1 ∧ p.1 ∈ g.nodes ∧
          rank p.1 ≤ rank c ∧ p.1 ∉ keysOf m) ∧
        (keysOf new).Nodup ∧ c ∈ keysOf (m ++ new) := by
  intro fuel
  induction fuel with
  | zero =>
    intro c m _ h
    exact absurd h (Nat.not_lt_zero _)
  | succ fuel ihf =>
    intro c m hcn hcf
    cases hmem : containsKey m c with
    | true =>
      refine ⟨[], ?_, by simp, by simp [keysOf], ?_⟩
      · rw [dfs_succ]
        simp [hmem, blocksOf]
      · simpa using (containsKey_iff m c).mp hmem
    | false =>
      have hds : ∀ d ∈ g.neighbors c, d ∈ g.nodes ∧ rank d < fuel ∧ rank d < rank c := by
        intro d hd
        have h1 := neighbors_mem_nodes hcl hd
        have h2 := neighbors_rank_lt hr hd
        exact ⟨h1, by omega, h2⟩
      obtain ⟨new1, e1, p1, n1, c1⟩ :=
        dfs_deps_sound g hash rank fuel (rank c) ihf (g.neighbors c) m hds
      refine ⟨new1 ++ [(c, perform_health_check hash c)], ?_, ?_, ?_, ?_⟩
      · rw [dfs_succ]
        simp only [hmem, Bool.false_eq_true, if_false]
        rw [e1]
        simp [blocksOf_append, blocksOf]
      · intro p hp
        rcases List.mem_append.mp hp with hp1 | hp2
        · obtain ⟨v, nn, rr, nm⟩ := p1 p hp1
          exact ⟨v, nn, le_of_lt rr, nm⟩
        · have hpc : p = (c, perform_health_check hash c) := by simpa using hp2
          subst hpc
          exact ⟨rfl, hcn, le_refl _, containsKey_false m c hmem⟩
      · rw [keysOf_append]
        refine List.Nodup.append n1 (by simp [keysOf]) ?_
        intro a ha1 ha2
        have hac : a = c := by simpa [keysOf] using ha2
        subst hac
        obtain ⟨p, hp, hpa⟩ := (mem_keysOf new1 a).mp ha1
        obtain ⟨_, _, rr, _⟩ := p1 p hp
        rw [hpa] at rr
        exact absurd rr (lt_irrefl _)
      · rw [keysOf_append, keysOf_append]
        refine List.mem_append.mpr (Or.inr ?_)
        simp [keysOf]

lemma eval_nodes_eq_from (g : DiGraph) (hash : String → Nat) (fuel : Nat) :
    eval_nodes g hash fuel = eval_from g hash fuel g.nodes (some ([], [])) := rfl

lemma eval_from_none (g : DiGraph) (hash : String → Nat) (fuel : Nat)
    (ns : List String) : eval_from g hash fuel ns none = none := by
  induction ns with
  | nil => rfl
  | cons c ns ih => exact ih

lemma eval_from_some (g : DiGraph) (hash : String → Nat) (fuel : Nat)
    (ns : List String) :
    ∀ m tr, eval_from g hash fuel ns (some (m, tr)) =
      Option.map (fun r => (r.1, tr ++ r.2)) (eval_from g hash fuel ns (some (m, []))) := by
  induction ns with
  | nil =>
    intro m tr
    simp [eval_from]
  | cons c ns ih =>
    intro m tr
    show eval_from g hash fuel ns (eval_step g hash fuel (some (m, tr)) c) =
      Option.map _ (eval_from g hash fuel ns (eval_step g hash fuel (some (m, [])) c))
    cases hmem : containsKey m c with
    | true =>
      simp only [eval_step, hmem, if_true]
      exact ih m tr
    | false =>
      simp only [eval_step, hmem, Bool.false_eq_true, if_false]
      rcases h : dfs_check_and_evaluate g hash fuel c m with _ | r
      · simp [eval_from_none]
      · rw [ih r.1 (tr ++ r.2), ih r.1 ([] ++ r.2)]
        rcases eval_from g hash fuel ns (some (r.1, [])) with _ | r2
        · rfl
        · simp

/-- Soundness of the endpoint loop on a closed, ranked graph: it succeeds,
extends the map with freshly probed components carrying their own probe
results, introduces no duplicate, and afterwards every processed node is in
the map. -/
lemma eval_sound (g : DiGraph) (hash rank : String → Nat) (fuel : Nat)
    (hcl : Closed g) (hr : RankedBy g rank) :
    ∀ ns m, (∀ c ∈ ns, c ∈ g.nodes ∧ rank c < fuel) →
      ∃ new, eval_from g hash fuel ns (some (m, [])) = some (m ++ new, blocksOf new) ∧
        (∀ p ∈ new, p.2 = perform_health_check hash p.1 ∧ p.1 ∈ g.nodes ∧
          p.1 ∉ keysOf m) ∧
        (keysOf new).Nodup ∧ ∀ c ∈ ns, c ∈ keysOf (m ++ new) := by
  intro ns
  induction ns with
  | nil =>
    intro m _
    exact ⟨[], by simp [eval_from, blocksOf], by simp, by simp [keysOf], by simp⟩
  | cons c ns ih =>
    intro m hns
    obtain ⟨hcn, hcf⟩ := hns c (by simp)
    cases hmem : containsKey m c with
    | true =>
      obtain ⟨new, e, p, n, cov⟩ := ih m (fun x hx => hns x (by simp [hx]))
      have step : eval_from g hash fuel (c :: ns) (some (m, [])) =
          eval_from g hash fuel ns (some (m, [])) := by
        show eval_from g hash fuel ns (eval_step g hash fuel (some (m, [])) c) = _
        simp [eval_step, hmem]
      refine ⟨new, by rw [step]; exact e, p, n, ?_⟩
      intro x hx
      rcases List.mem_cons.mp hx with rfl | hx'
      · have : x ∈ keysOf m := (containsKey_iff m x).mp hmem
        rw [keysOf_append]
        exact List.mem_append.mpr (Or.inl this)
      · exact cov x hx'
    | false =>
      obtain ⟨new1, e1, p1, n1, c1⟩ := dfs_sound g hash rank hcl hr fuel c m hcn hcf
      obtain ⟨new2, e2, p2, n2, c2⟩ :=
        ih (m ++ new1) (fun x hx => hns x (by simp [hx]))
      have step : eval_from g hash fuel (c :: ns) (some (m, [])) =
          eval_from g hash fuel ns (some (m ++ new1, blocksOf new1)) := by
        show eval_from g hash fuel ns (eval_step g hash fuel (some (m, [])) c) = _
        simp [eval_step, hmem, e1]
      refine ⟨new1 ++ new2, ?_, ?_, ?_, ?_⟩
      · rw [step, eval_from_some, e2]
        simp [blocksOf_append]
      · intro p hp
        rcases List.mem_append.mp hp with hp1 | hp2
        · obtain ⟨v, nn, _, nm⟩ := p1 p hp1
          exact ⟨v, nn, nm⟩
        · obtain ⟨v, nn, nm⟩ := p2 p hp2
          refine ⟨v, nn, ?_⟩
          intro hmem'
          exact nm (by rw [keysOf_append]; exact List.mem_append.mpr (Or.inl hmem'))
      · rw [keysOf_append]
        refine List.Nodup.append n1 n2 ?_
        intro a ha1 ha2
        obtain ⟨p, hp, hpa⟩ := (mem_keysOf new2 a).mp ha2
        obtain ⟨_, _, nm⟩ := p2 p hp
        rw [hpa] at nm
        exact nm (by rw [keysOf_append]; exact List.mem_append.mpr (Or.inr ha1))
      · intro x hx
        rcases List.mem_cons.mp hx with rfl | hx'
        · rw [keysOf_append] at c1 ⊢
          rw [keysOf_append]
          rcases List.mem_append.mp c1 with h | h
          · exact List.mem_append.mpr (Or.inl h)
          · exact List.mem_append.mpr (Or.inr (List.mem_append.mpr (Or.inl h)))
        · have := c2 x hx'
          rw [keysOf_append, keysOf_append] at this
          rw [keysOf_append, keysOf_append]
          rcases List.mem_append.mp this with h | h
          · rcases List.mem_append.mp h with h' | h'
            · exact List.mem_append.mpr (Or.inl h')
            · exact List.mem_append.mpr (Or.inr (List.mem_append.mpr (Or.inl h')))
          · exact List.mem_append.mpr (Or.inr (List.mem_append.mpr (Or.inr h)))

/-- The central soundness fact used by the claims: on a closed graph whose
dependency relation admits a rank function (equivalently, is acyclic), with
fuel above every node's rank, the evaluation loop completes and yields a
status map with (i) each entry being the component's own probe result,
(ii) no duplicate entries, (iii) an entry for every graph node, and a trace
consisting of adjacent start/finish blocks in map order. -/
lemma eval_nodes_sound (g : DiGraph) (hash rank : String → Nat) (fuel : Nat)
    (hcl : Closed g) (hr : RankedBy g rank) (hf : ∀ c ∈ g.nodes, rank c < fuel) :
    ∃ m, eval_nodes g hash fuel = some (m, blocksOf m) ∧
      (∀ p ∈ m, p.2 = perform_health_check hash p.1 ∧ p.1 ∈ g.nodes) ∧
      (keysOf m).Nodup ∧ ∀ c ∈ g.nodes, c ∈ keysOf m := by
  obtain ⟨new, e, p, n, cov⟩ :=
    eval_sound g hash rank fuel hcl hr g.nodes [] (fun c hc => ⟨hc, hf c hc⟩)
  refine ⟨new, ?_, fun q hq => ⟨(p q hq).1, (p q hq).2.1⟩, n, ?_⟩
  · rw [eval_nodes_eq_from]
    simpa using e
  · intro c hc
    simpa using cov c hc

lemma add_node_edges (g : DiGraph) (x : String) :
    (add_node g x).edges = g.edges := by
  by_cases h : x ∈ g.nodes <;> simp [add_node, h]

lemma mem_add_node (g : DiGraph) (x n : String) (h : n ∈ g.nodes) :
    n ∈ (add_node g x).nodes := by
  by_cases hx : x ∈ g.nodes <;> simp [add_node, hx, h]

lemma mem_add_node_self (g : DiGraph) (x : String) :
    x ∈ (add_node g x).nodes := by
  by_cases hx : x ∈ g.nodes <;> simp [add_node, hx]

lemma add_edge_edges (g : DiGraph) (u v : String) :
    (add_edge g u v).edges =
      if (u, v) ∈ g.edges then g.edges else g.edges ++ [(u, v)] := by
  by_cases he : (u, v) ∈ g.edges <;>
    simp [add_edge, add_node_edges, he]

lemma add_edge_nodes (g : DiGraph) (u v : String) :
    (add_edge g u v).nodes = (add_node (add_node g u) v).nodes := by
  by_cases he : (u, v) ∈ (add_node (add_node g u) v).edges <;>
    simp [add_edge, he]

lemma mem_add_edge (g : DiGraph) (u v n : String) (h : n ∈ g.nodes) :
    n ∈ (add_edge g u v).nodes := by
  rw [add_edge_nodes]
  exact mem_add_node _ _ _ (mem_add_node _ _ _ h)

lemma mem_add_edge_fst (g : DiGraph) (u v : String) :
    u ∈ (add_edge g u v).nodes := by
  rw [add_edge_nodes]
  exact mem_add_node _ _ _ (mem_add_node_self g u)

lemma mem_add_edge_snd (g : DiGraph) (u v : String) :
    v ∈ (add_edge g u v).nodes := by
  rw [add_edge_nodes]
  exact mem_add_node_self _ v

lemma closed_add_node (g : DiGraph) (x : String) (hg : Closed g) :
    Closed (add_node g x) := by
  intro p hp
  rw [add_node_edges] at hp
  exact ⟨mem_add_node _ _ _ (hg p hp).1, mem_add_node _ _ _ (hg p hp).2⟩

lemma closed_add_edge (g : DiGraph) (u v : String) (hg : Closed g) :
    Closed (add_edge g u v) := by
  intro p hp
  rw [add_edge_edges] at hp
  by_cases he : (u, v) ∈ g.edges
  · rw [if_pos he] at hp
    exact ⟨mem_add_edge _ _ _ _ (hg p hp).1, mem_add_edge _ _ _ _ (hg p hp).2⟩
  · rw [if_neg he] at hp
    rcases List.mem_append.mp hp with hp' | hp'
    · exact ⟨mem_add_edge _ _ _ _ (hg p hp').1, mem_add_edge _ _ _ _ (hg p hp').2⟩
    · have : p = (u, v) := by simpa using hp'
      subst this
      exact ⟨mem_add_edge_fst g u v, mem_add_edge_snd g u v⟩

lemma inner_fold_closed (c : String) :
    ∀ (deps : List String) (d : DiGraph), Closed d →
      Closed (deps.foldl (fun d dep => add_edge d dep c) d) := by
  intro deps
  induction deps with
  | nil => intro d hd; exact hd
  | cons dep rest ih =>
    intro d hd
    exact ih (add_edge d dep c) (closed_add_edge d dep c hd)

lemma inner_fold_nodes_mono (c : String) :
    ∀ (deps : List String) (d : DiGraph) (n : String), n ∈ d.nodes →
      n ∈ (deps.foldl (fun d dep => add_edge d dep c) d).nodes := by
  intro deps
  induction deps with
  | nil => intro d n h; exact h
  | cons dep rest ih =>
    intro d n h
    exact ih (add_edge d dep c) n (mem_add_edge _ _ _ _ h)

lemma inner_fold_mem (c : String) :
    ∀ (deps : List String) (d : DiGraph) (dep : String), dep ∈ deps →
      dep ∈ (deps.foldl (fun d dep => add_edge d dep c) d).nodes := by
  intro deps
  induction deps with
  | nil => simp
  | cons d0 rest ih =>
    intro d dep hdep
    rcases List.mem_cons.mp hdep with rfl | hdep'
    · exact inner_fold_nodes_mono c rest (add_edge d dep c) dep
        (mem_add_edge_fst d dep c)
    · exact ih (add_edge d d0 c) dep hdep'

lemma outer_fold_closed :
    ∀ (data : List (String × List String)) (g : DiGraph), Closed g →
      Closed (data.foldl
        (fun dag p => p.2.foldl (fun d dep => add_edge d dep p.1) (add_node dag p.1))
        g) := by
  intro data
  induction data with
  | nil => intro g hg; exact hg
  | cons p rest ih =>
    intro g hg
    exact ih _ (inner_fold_closed p.1 p.2 (add_node g p.1) (closed_add_node g p.1 hg))

/-- Every graph the builder constructs is closed: all edge endpoints are
nodes (networkx `add_edge` auto-creates them). -/
lemma create_dag_closed (data : List (String × List String)) :
    Closed (create_dag_from_json data) := by
  have : Closed { nodes := [], edges := [] : DiGraph } := by
    intro p hp
    simp at hp
  exact outer_fold_closed data _ this

lemma outer_fold_nodes_mono :
    ∀ (data : List (String × List String)) (g : DiGraph) (n : String), n ∈ g.nodes →
      n ∈ (data.foldl
        (fun dag p => p.2.foldl (fun d dep => add_edge d dep p.1) (add_node dag p.1))
        g).nodes := by
  intro data
  induction data with
  | nil => intro g n h; exact h
  | cons p rest ih =>
    intro g n h
    exact ih _ n (inner_fold_nodes_mono p.1 p.2 (add_node g p.1) n (mem_add_node g p.1 n h))

/-- Every identifier listed as a dependency becomes a node of the
constructed graph, whether or not it has its own entry in the description. -/
lemma create_dag_dep_mem :
    ∀ (data : List (String × List String)) (g : DiGraph) (c : String)
      (deps : List String) (dep : String), (c, deps) ∈ data → dep ∈ deps →
      dep ∈ (data.foldl
        (fun dag p => p.2.foldl (fun d dep => add_edge d dep p.1) (add_node dag p.1))
        g).nodes := by
  intro data
  induction data with
  | nil => simp
  | cons p rest ih =>
    intro g c deps dep hmem hdep
    rcases List.mem_cons.mp hmem with heq | hmem'
    · subst heq
      have h1 : dep ∈ ((c, deps).2.foldl (fun d dep => add_edge d dep (c, deps).1)
          (add_node g (c, deps).1)).nodes :=
        inner_fold_mem (c, deps).1 (c, deps).2 (add_node g (c, deps).1) dep hdep
      exact outer_fold_nodes_mono rest _ dep h1
    · exact ih _ c deps dep hmem' hdep

lemma lookupKey_isSome (m : StatusMap) (k : String) (h : k ∈ keysOf m) :
    ∃ v, lookupKey m k = some v := by
  induction m with
  | nil => simp [keysOf] at h
  | cons p rest ih =>
    by_cases hpk : p.1 = k
    · exact ⟨p.2, by simp [lookupKey, hpk]⟩
    · have h' : k ∈ keysOf rest := by
        simp only [keysOf, List.map_cons, List.mem_cons] at h
        rcases h with h | h
        · exact absurd h.symm hpk
        · simpa [keysOf] using h
      obtain ⟨v, hv⟩ := ih h'
      exact ⟨v, by simp [lookupKey, hpk, hv]⟩

lemma colorList_some (m : StatusMap) :
    ∀ ns : List String, (∀ n ∈ ns, n ∈ keysOf m) →
      ∃ cs, colorList m ns = some cs := by
  intro ns
  induction ns with
  | nil => intro; exact ⟨[], rfl⟩
  | cons n rest ih =>
    intro h
    obtain ⟨v, hv⟩ := lookupKey_isSome m n (h n (by simp))
    obtain ⟨cs, hcs⟩ := ih (fun x hx => h x (by simp [hx]))
    exact ⟨(if v == "Failed" then "red" else "green") :: cs, by
      simp [colorList, hv, hcs]⟩

lemma dfs_selfloop_none (hash : String → Nat) :
    ∀ fuel, dfs_check_and_evaluate { nodes := ["A"], edges := [("A", "A")] }
      hash fuel "A" [] = none := by
  intro fuel
  induction fuel with
  | zero => rfl
  | succ fuel ih =>
    rw [dfs_succ]
    have h2 : DiGraph.neighbors { nodes := ["A"], edges := [("A", "A")] } "A" = ["A"] := rfl
    simp [containsKey, h2, dfs_deps_cons, ih]

lemma health_check_selfloop_none (hash : String → Nat) (fuel : Nat) :
    health_check hash fuel [("A", ["A"])] = none := by
  have hg : create_dag_from_json [("A", ["A"])] =
      { nodes := ["A"], edges := [("A", "A")] } := rfl
  show eval_nodes (create_dag_from_json [("A", ["A"])]) hash fuel = none
  rw [hg]
  show List.foldl _ (some ([], [])) ["A"] = none
  simp [eval_step, containsKey, dfs_selfloop_none hash fuel]

lemma dfs_cycle3_none (hash : String → Nat) :
    ∀ fuel,
      dfs_check_and_evaluate
        { nodes := ["A", "C", "B"], edges := [("C", "A"), ("A", "B"), ("B", "C")] }
        hash fuel "A" [] = none ∧
      dfs_check_and_evaluate
        { nodes := ["A", "C", "B"], edges := [("C", "A"), ("A", "B"), ("B", "C")] }
        hash fuel "B" [] = none ∧
      dfs_check_and_evaluate
        { nodes := ["A", "C", "B"], edges := [("C", "A"), ("A", "B"), ("B", "C")] }
        hash fuel "C" [] = none := by
  intro fuel
  induction fuel with
  | zero => exact ⟨rfl, rfl, rfl⟩
  | succ fuel ih =>
    obtain ⟨ihA, ihB, ihC⟩ := ih
    refine ⟨?_, ?_, ?_⟩
    · rw [dfs_succ]
      have h2 : DiGraph.neighbors
          { nodes := ["A", "C", "B"], edges := [("C", "A"), ("A", "B"), ("B", "C")] }
          "A" = ["B"] := rfl
      simp [containsKey, h2, dfs_deps_cons, ihB]
    · rw [dfs_succ]
      have h2 : DiGraph.neighbors
          { nodes := ["A", "C", "B"], edges := [("C", "A"), ("A", "B"), ("B", "C")] }
          "B" = ["C"] := rfl
      simp [containsKey, h2, dfs_deps_cons, ihC]
    · rw [dfs_succ]
      have h2 : DiGraph.neighbors
          { nodes := ["A", "C", "B"], edges := [("C", "A"), ("A", "B"), ("B", "C")] }
          "C" = ["A"] := rfl
      simp [containsKey, h2, dfs_deps_cons, ihA]

lemma health_check_cycle3_none (hash : String → Nat) (fuel : Nat) :
    health_check hash fuel [("A", ["C"]), ("B", ["A"]), ("C", ["B"])] = none := by
  have hg : create_dag_from_json [("A", ["C"]), ("B", ["A"]), ("C", ["B"])] =
      { nodes := ["A", "C", "B"], edges := [("C", "A"), ("A", "B"), ("B", "C")] } := rfl
  show eval_nodes (create_dag_from_json [("A", ["C"]), ("B", ["A"]), ("C", ["B"])])
    hash fuel = none
  rw [hg]
  show List.foldl _ (some ([], [])) ["A", "C", "B"] = none
  simp [eval_step, containsKey, (dfs_cycle3_none hash fuel).1]

lemma table_foldl_eq (l : StatusMap) :
    ∀ s : String,
      l.foldl (fun table p => table ++ ljust p.1 15 ++ " | " ++ p.2 ++ "\n") s =
        s ++ statusRows l := by
  induction l with
  | nil =>
    intro s
    simp [statusRows, String.append_empty]
  | cons p rest ih =>
    intro s
    show List.foldl _ (s ++ ljust p.1 15 ++ " | " ++ p.2 ++ "\n") rest = _
    rw [ih]
    simp [statusRows, String.append_assoc]

/-- C1: refuted by the code (the code contradicts its own comments, which
announce "check dependencies first"): for `{"A": [], "B": ["A"]}`, where B
depends on A, the run probes B first and resolves A only afterwards — the
trace starts B's probe before A's resolution, because `dag.neighbors` on a
`networkx.DiGraph` yields successors (dependents), not dependencies.  The
claimed ordering invariant fails at this input. -/
theorem C1_dependent_probed_before_dependency :
    health_check (fun _ => 1) 10 [("A", []), ("B", ["A"])] =
      some ([("B", "Healthy"), ("A", "Healthy")],
        [Ev.start "B", Ev.finish "B", Ev.start "A", Ev.finish "A"]) := by
  decide

/-- C2: on every closed graph whose dependency relation admits a rank
function (equivalently: every acyclic graph), with fuel above every node's
rank, the evaluation run completes and its trace starts exactly one probe
for every component — components reachable along several paths included,
thanks to the `component not in status_map` memoization guard. -/
theorem C2_each_component_probed_exactly_once (g : DiGraph)
    (hash rank : String → Nat) (fuel : Nat) (hcl : Closed g)
    (hr : RankedBy g rank) (hf : ∀ c ∈ g.nodes, rank c < fuel) :
    ∃ m tr, eval_nodes g hash fuel = some (m, tr) ∧
      ∀ k ∈ g.nodes, tr.count (Ev.start k) = 1 := by
  obtain ⟨m, e, _, hnd, hcov⟩ := eval_nodes_sound g hash rank fuel hcl hr hf
  refine ⟨m, blocksOf m, e, ?_⟩
  intro k hk
  rw [count_start_blocksOf]
  exact List.count_eq_one_of_mem hnd (hcov k hk)

/-- C2 witness: the diamond graph (D depends on B and C, both of which
depend on A), evaluated with full hypotheses discharged concretely. -/
theorem C2_each_component_probed_exactly_once_witness :
    Closed (create_dag_from_json diamond_description) ∧
    RankedBy (create_dag_from_json diamond_description)
      (fun c => if c == "A" then 2 else if c == "D" then 0 else 1) ∧
    (∀ c ∈ (create_dag_from_json diamond_description).nodes,
      (if c == "A" then 2 else if c == "D" then 0 else 1) < 10) ∧
    (∃ m tr, eval_nodes (create_dag_from_json diamond_description) (fun _ => 1) 10 =
        some (m, tr) ∧
      ∀ k ∈ (create_dag_from_json diamond_description).nodes,
        tr.count (Ev.start k) = 1) := by
  have h1 : Closed (create_dag_from_json diamond_description) := by decide
  have h2 : RankedBy (create_dag_from_json diamond_description)
      (fun c => if c == "A" then 2 else if c == "D" then 0 else 1) := by decide
  have h3 : ∀ c ∈ (create_dag_from_json diamond_description).nodes,
      (if c == "A" then 2 else if c == "D" then 0 else 1) < 10 := by decide
  exact ⟨h1, h2, h3,
    C2_each_component_probed_exactly_once (create_dag_from_json diamond_description)
      (fun _ => 1) (fun c => if c == "A" then 2 else if c == "D" then 0 else 1)
      10 h1 h2 h3⟩

/-- C3 counterexample: graph construction performs no validation at all — on
the minimal self-loop it happily returns a graph (no `CycleError` exists
anywhere in the code), and evaluation then exhausts any recursion bound
(modelled by fuel; Python raises `RecursionError`), here shown at bound 50
for both the self-loop and the three-cycle A→B→C→A. -/
theorem C3_no_cycle_error_cex :
    create_dag_from_json [("A", ["A"])] =
      { nodes := ["A"], edges := [("A", "A")] } ∧
    health_check (fun _ => 1) 50 [("A", ["A"])] = none ∧
    health_check (fun _ => 1) 50 [("A", ["C"]), ("B", ["A"]), ("C", ["B"])] = none := by
  decide

/-- C3 amended: graph construction accepts cyclic descriptions (there is no
cycle detection and no `CycleError`); on a cyclic input the recursive
evaluator never completes — for every recursion bound the run exhausts it
(Python: unbounded recursion ending in `RecursionError`) — and no component
is ever probed or recorded. -/
theorem C3_cyclic_input_never_terminates :
    ∀ (hash : String → Nat) (fuel : Nat),
      health_check hash fuel [("A", ["A"])] = none ∧
      health_check hash fuel [("A", ["C"]), ("B", ["A"]), ("C", ["B"])] = none :=
  fun hash fuel =>
    ⟨health_check_selfloop_none hash fuel, health_check_cycle3_none hash fuel⟩

/-- C4 counterexample: the description `{"B": ["A"]}` references the
undefined identifier A, yet construction succeeds (networkx `add_edge`
auto-creates A as a node — no `UnknownDependencyError` exists in the code)
and the run probes both components, A included. -/
theorem C4_no_unknown_dependency_error_cex :
    create_dag_from_json [("B", ["A"])] =
      { nodes := ["B", "A"], edges := [("A", "B")] } ∧
    health_check (fun _ => 1) 10 [("B", ["A"])] =
      some ([("B", "Healthy"), ("A", "Healthy")],
        [Ev.start "B", Ev.finish "B", Ev.start "A", Ev.finish "A"]) := by
  decide

/-- C4 amended: a dependency identifier with no component definition is
auto-created as a graph node by `add_edge`; construction never fails, and on
an acyclic description the auto-created node is probed exactly once like any
other component. -/
theorem C4_unknown_dependency_auto_created (data : List (String × List String))
    (hash rank : String → Nat) (fuel : Nat) (c : String) (deps : List String)
    (d : String) (hmem : (c, deps) ∈ data) (hd : d ∈ deps)
    (hr : RankedBy (create_dag_from_json data) rank)
    (hf : ∀ x ∈ (create_dag_from_json data).nodes, rank x < fuel) :
    d ∈ (create_dag_from_json data).nodes ∧
    ∃ m tr, health_check hash fuel data = some (m, tr) ∧ d ∈ keysOf m ∧
      tr.count (Ev.start d) = 1 := by
  have hdn : d ∈ (create_dag_from_json data).nodes :=
    create_dag_dep_mem data { nodes := [], edges := [] } c deps d hmem hd
  obtain ⟨m, e, _, hnd, hcov⟩ :=
    eval_nodes_sound (create_dag_from_json data) hash rank fuel
      (create_dag_closed data) hr hf
  refine ⟨hdn, m, blocksOf m, e, hcov d hdn, ?_⟩
  rw [count_start_blocksOf]
  exact List.count_eq_one_of_mem hnd (hcov d hdn)

/-- C4 witness: the undefined dependency A of `{"B": ["A"]}`, with all
hypotheses discharged concretely. -/
theorem C4_unknown_dependency_auto_created_witness :
    ("B", ["A"]) ∈ [("B", ["A"])] ∧ "A" ∈ ["A"] ∧
    RankedBy (create_dag_from_json [("B", ["A"])])
      (fun x => if x == "A" then 1 else 0) ∧
    (∀ x ∈ (create_dag_from_json [("B", ["A"])]).nodes,
      (if x == "A" then 1 else 0) < 10) ∧
    ("A" ∈ (create_dag_from_json [("B", ["A"])]).nodes ∧
      ∃ m tr, health_check (fun _ => 1) 10 [("B", ["A"])] = some (m, tr) ∧
        "A" ∈ keysOf m ∧ tr.count (Ev.start "A") = 1) := by
  have h1 : ("B", ["A"]) ∈ [("B", ["A"])] := by decide
  have h2 : "A" ∈ ["A"] := by decide
  have h3 : RankedBy (create_dag_from_json [("B", ["A"])])
      (fun x => if x == "A" then 1 else 0) := by decide
  have h4 : ∀ x ∈ (create_dag_from_json [("B", ["A"])]).nodes,
      (if x == "A" then 1 else 0) < 10 := by decide
  exact ⟨h1, h2, h3, h4,
    C4_unknown_dependency_auto_created [("B", ["A"])] (fun _ => 1)
      (fun x => if x == "A" then 1 else 0) 10 "B" ["A"] "A" h1 h2 h3 h4⟩

set_option maxRecDepth 8192 in
/-- C5 counterexample: for the diamond description with a deterministic
probe, the report rows come out in order D, B, C, A — neither A, B, C, D nor
A, C, B, D — because the traversal records dependents before their
dependencies. -/
theorem C5_report_order_cex :
    Option.map (fun r => keysOf r.1)
        (health_check (fun _ => 1) 10 diamond_description) ≠
      some ["A", "B", "C", "D"] ∧
    Option.map (fun r => keysOf r.1)
        (health_check (fun _ => 1) 10 diamond_description) ≠
      some ["A", "C", "B", "D"] ∧
    Option.map (fun r => keysOf r.1)
        (health_check (fun _ => 1) 10 diamond_description) =
      some ["D", "B", "C", "A"] := by
  decide

/-- C5 amended: runs over the diamond description are deterministic given
the probe function, but the report rows always appear in order D, B, C, A
(dependents recorded before dependencies); the report carries no overall
status field. -/
theorem C5_report_order_deterministic :
    ∀ hash : String → Nat,
      Option.map (fun r => keysOf r.1) (health_check hash 10 diamond_description) =
        some ["D", "B", "C", "A"] :=
  fun _ => rfl

set_option maxRecDepth 8192 in
/-- C6 counterexample: the report for an all-`Failed` status map is exactly
the fixed header, the fixed separator, and the single per-component row —
it contains no `Unhealthy`, `Degraded`, or indeed any `Healthy` marker, so
no aggregate overall status distinguishing the all-healthy case exists. -/
theorem C6_no_overall_status_cex :
    generate_status_table [("A", "Failed")] =
      "Component     | Health\n------------------------------\nA               | Failed\n" ∧
    ¬ ("Unhealthy".data <:+: (generate_status_table [("A", "Failed")]).data) ∧
    ¬ ("Degraded".data <:+: (generate_status_table [("A", "Failed")]).data) ∧
    ¬ ("Healthy".data <:+: (generate_status_table [("A", "Failed")]).data) := by
  decide

/-- C6 amended: the report consists solely of the fixed header line, the
fixed separator line, and one row per component in map insertion order; no
aggregate overall status is computed or rendered anywhere. -/
theorem C6_table_is_exactly_rows :
    ∀ m : StatusMap,
      generate_status_table m =
        "Component     | Health\n" ++ String.mk (List.replicate 30 '-') ++ "\n" ++
          statusRows m := by
  intro m
  show List.foldl _ _ m = _
  rw [table_foldl_eq]

/-- C7: a dependency that resolves to `Failed` never suppresses its
dependents: on every acyclic closed graph, if A probes `Failed` and B
depends on A (edge A → B), the run still completes, probes B exactly once,
and records B's own independently determined probe result. -/
theorem C7_failed_dependency_not_blocking (g : DiGraph)
    (hash rank : String → Nat) (fuel : Nat) (A B : String) (hcl : Closed g)
    (hr : RankedBy g rank) (hf : ∀ c ∈ g.nodes, rank c < fuel)
    (hedge : (A, B) ∈ g.edges)
    (hA : perform_health_check hash A = "Failed") :
    ∃ m tr, eval_nodes g hash fuel = some (m, tr) ∧
      lookupKey m B = some (perform_health_check hash B) ∧
      tr.count (Ev.start B) = 1 := by
  obtain ⟨m, e, hv, hnd, hcov⟩ := eval_nodes_sound g hash rank fuel hcl hr hf
  have hBn : B ∈ g.nodes := (hcl _ hedge).2
  refine ⟨m, blocksOf m, e, ?_, ?_⟩
  · exact lookupKey_eq_of_forall (perform_health_check hash) m
      (fun p hp => (hv p hp).1) B (hcov B hBn)
  · rw [count_start_blocksOf]
    exact List.count_eq_one_of_mem hnd (hcov B hBn)

/-- C7 witness: A probes `Failed` (hash A = 0), B depends on A, and B is
still probed and recorded with its own status. -/
theorem C7_failed_dependency_not_blocking_witness :
    Closed (create_dag_from_json [("A", []), ("B", ["A"])]) ∧
    RankedBy (create_dag_from_json [("A", []), ("B", ["A"])])
      (fun c => if c == "A" then 1 else 0) ∧
    (∀ c ∈ (create_dag_from_json [("A", []), ("B", ["A"])]).nodes,
      (if c == "A" then 1 else 0) < 10) ∧
    ("A", "B") ∈ (create_dag_from_json [("A", []), ("B", ["A"])]).edges ∧
    perform_health_check (fun c => if c == "A" then 0 else 1) "A" = "Failed" ∧
    (∃ m tr, eval_nodes (create_dag_from_json [("A", []), ("B", ["A"])])
        (fun c => if c == "A" then 0 else 1) 10 = some (m, tr) ∧
      lookupKey m "B" =
        some (perform_health_check (fun c => if c == "A" then 0 else 1) "B") ∧
      tr.count (Ev.start "B") = 1) := by
  have h1 : Closed (create_dag_from_json [("A", []), ("B", ["A"])]) := by decide
  have h2 : RankedBy (create_dag_from_json [("A", []), ("B", ["A"])])
      (fun c => if c == "A" then 1 else 0) := by decide
  have h3 : ∀ c ∈ (create_dag_from_json [("A", []), ("B", ["A"])]).nodes,
      (if c == "A" then 1 else 0) < 10 := by decide
  have h4 : ("A", "B") ∈ (create_dag_from_json [("A", []), ("B", ["A"])]).edges := by
    decide
  have h5 : perform_health_check (fun c => if c == "A" then 0 else 1) "A" =
      "Failed" := by decide
  exact ⟨h1, h2, h3, h4, h5,
    C7_failed_dependency_not_blocking (create_dag_from_json [("A", []), ("B", ["A"])])
      (fun c => if c == "A" then 0 else 1) (fun c => if c == "A" then 1 else 0)
      10 "A" "B" h1 h2 h3 h4 h5⟩

/-- C8: the probe cannot abort the run: it is a total function into status
strings (the source returns `"Healthy"`/`"Failed"`, never raises), and on
every acyclic closed graph — whatever statuses the probe yields — the run
completes with an entry for every component holding that component's own
probe result; in particular a failing probe appears as a `"Failed"` entry
rather than as an exception. -/
theorem C8_probe_failure_never_aborts (g : DiGraph)
    (hash rank : String → Nat) (fuel : Nat) (hcl : Closed g)
    (hr : RankedBy g rank) (hf : ∀ c ∈ g.nodes, rank c < fuel) :
    ∃ m tr, eval_nodes g hash fuel = some (m, tr) ∧
      (∀ c ∈ g.nodes, lookupKey m c = some (perform_health_check hash c)) ∧
      ∀ c ∈ g.nodes, perform_health_check hash c = "Failed" →
        lookupKey m c = some "Failed" := by
  obtain ⟨m, e, hv, _, hcov⟩ := eval_nodes_sound g hash rank fuel hcl hr hf
  have hlook : ∀ c ∈ g.nodes, lookupKey m c = some (perform_health_check hash c) :=
    fun c hc => lookupKey_eq_of_forall (perform_health_check hash) m
      (fun p hp => (hv p hp).1) c (hcov c hc)
  exact ⟨m, blocksOf m, e, hlook, fun c hc hfail => by rw [hlook c hc, hfail]⟩

/-- C8 witness: a probe that fails everywhere (hash ≡ 0) on a two-component
chain; the run completes and both entries read `"Failed"`. -/
theorem C8_probe_failure_never_aborts_witness :
    Closed (create_dag_from_json [("A", []), ("B", ["A"])]) ∧
    RankedBy (create_dag_from_json [("A", []), ("B", ["A"])])
      (fun c => if c == "A" then 1 else 0) ∧
    (∀ c ∈ (create_dag_from_json [("A", []), ("B", ["A"])]).nodes,
      (if c == "A" then 1 else 0) < 10) ∧
    (∃ m tr, eval_nodes (create_dag_from_json [("A", []), ("B", ["A"])])
        (fun _ => 0) 10 = some (m, tr) ∧
      (∀ c ∈ (create_dag_from_json [("A", []), ("B", ["A"])]).nodes,
        lookupKey m c = some (perform_health_check (fun _ => 0) c)) ∧
      ∀ c ∈ (create_dag_from_json [("A", []), ("B", ["A"])]).nodes,
        perform_health_check (fun _ => 0) c = "Failed" →
          lookupKey m c = some "Failed") := by
  have h1 : Closed (create_dag_from_json [("A", []), ("B", ["A"])]) := by decide
  have h2 : RankedBy (create_dag_from_json [("A", []), ("B", ["A"])])
      (fun c => if c == "A" then 1 else 0) := by decide
  have h3 : ∀ c ∈ (create_dag_from_json [("A", []), ("B", ["A"])]).nodes,
      (if c == "A" then 1 else 0) < 10 := by decide
  exact ⟨h1, h2, h3,
    C8_probe_failure_never_aborts (create_dag_from_json [("A", []), ("B", ["A"])])
      (fun _ => 0) (fun c => if c == "A" then 1 else 0) 10 h1 h2 h3⟩

/-- C9 counterexample: two components with no dependency relationship are
probed strictly one after the other — the trace interleaves nothing between
a probe's start and its completion, and the in-flight maximum is 1, not 2;
no `concurrencyLimit` parameter exists anywhere in the code. -/
theorem C9_independent_probes_no_overlap_cex :
    health_check (fun _ => 1) 10 [("A", []), ("B", [])] =
      some ([("A", "Healthy"), ("B", "Healthy")],
        [Ev.start "A", Ev.finish "A", Ev.start "B", Ev.finish "B"]) ∧
    maxInFlight [Ev.start "A", Ev.finish "A", Ev.start "B", Ev.finish "B"] = 1 := by
  decide

/-- C9 amended: evaluation is strictly sequential — each probe's start is
immediately followed by its completion (the coroutine awaits every probe to
completion before doing anything else), so at most one probe is ever in
flight, independent components included; the code has no concurrency limit
because it has no concurrency. -/
theorem C9_probes_strictly_sequential (g : DiGraph)
    (hash rank : String → Nat) (fuel : Nat) (hcl : Closed g)
    (hr : RankedBy g rank) (hf : ∀ c ∈ g.nodes, rank c < fuel) :
    ∃ m, eval_nodes g hash fuel = some (m, blocksOf m) ∧
      maxInFlight (blocksOf m) ≤ 1 := by
  obtain ⟨m, e, _, _, _⟩ := eval_nodes_sound g hash rank fuel hcl hr hf
  exact ⟨m, e, maxInFlight_blocksOf_le_one m⟩

/-- C9 witness: two independent components, hypotheses discharged
concretely. -/
theorem C9_probes_strictly_sequential_witness :
    Closed (create_dag_from_json [("A", []), ("B", [])]) ∧
    RankedBy (create_dag_from_json [("A", []), ("B", [])]) (fun _ => 0) ∧
    (∀ c ∈ (create_dag_from_json [("A", []), ("B", [])]).nodes,
      (fun _ => (0 : Nat)) c < 10) ∧
    (∃ m, eval_nodes (create_dag_from_json [("A", []), ("B", [])])
        (fun _ => 1) 10 = some (m, blocksOf m) ∧
      maxInFlight (blocksOf m) ≤ 1) := by
  have h1 : Closed (create_dag_from_json [("A", []), ("B", [])]) := by decide
  have h2 : RankedBy (create_dag_from_json [("A", []), ("B", [])]) (fun _ => 0) := by
    decide
  have h3 : ∀ c ∈ (create_dag_from_json [("A", []), ("B", [])]).nodes,
      (fun _ => (0 : Nat)) c < 10 := by decide
  exact ⟨h1, h2, h3,
    C9_probes_strictly_sequential (create_dag_from_json [("A", []), ("B", [])])
      (fun _ => 1) (fun _ => 0) 10 h1 h2 h3⟩

/-- C10: on every acyclic description, the run completes with a status-map
entry for every node of the constructed graph — auto-created
dependency-only identifiers included — so the `status_map[node]` lookups of
the image renderer all succeed and the color list is produced. -/
theorem C10_render_lookup_never_fails (data : List (String × List String))
    (hash rank : String → Nat) (fuel : Nat)
    (hr : RankedBy (create_dag_from_json data) rank)
    (hf : ∀ c ∈ (create_dag_from_json data).nodes, rank c < fuel) :
    ∃ m tr, health_check hash fuel data = some (m, tr) ∧
      (∀ c ∈ (create_dag_from_json data).nodes, c ∈ keysOf m) ∧
      ∃ cs, node_colors (create_dag_from_json data) m = some cs := by
  obtain ⟨m, e, _, _, hcov⟩ :=
    eval_nodes_sound (create_dag_from_json data) hash rank fuel
      (create_dag_closed data) hr hf
  exact ⟨m, blocksOf m, e, hcov, colorList_some m _ hcov⟩

/-- C10 witness: `{"B": ["A"]}`, whose node A exists only as a dependency
reference and is auto-created; the rendering color list is produced. -/
theorem C10_render_lookup_never_fails_witness :
    RankedBy (create_dag_from_json [("B", ["A"])])
      (fun x => if x == "A" then 1 else 0) ∧
    (∀ c ∈ (create_dag_from_json [("B", ["A"])]).nodes,
      (if c == "A" then 1 else 0) < 10) ∧
    (∃ m tr, health_check (fun _ => 1) 10 [("B", ["A"])] = some (m, tr) ∧
      (∀ c ∈ (create_dag_from_json [("B", ["A"])]).nodes, c ∈ keysOf m) ∧
      ∃ cs, node_colors (create_dag_from_json [("B", ["A"])]) m = some cs) := by
  have h1 : RankedBy (create_dag_from_json [("B", ["A"])])
      (fun x => if x == "A" then 1 else 0) := by decide
  have h2 : ∀ c ∈ (create_dag_from_json [("B", ["A"])]).nodes,
      (if c == "A" then 1 else 0) < 10 := by decide
  exact ⟨h1, h2,
    C10_render_lookup_never_fails [("B", ["A"])] (fun _ => 1)
      (fun x => if x == "A" then 1 else 0) 10 h1 h2⟩
